import Mathlib

/-!
Verification of the zulip_scraping repository against its specification.

The development shallowly embeds the harvesting core of the browser script
(`zulip_scraper.js`, given as `src/unnamed/part_000`) and the offline stages
(`zulip_cleaner.js` and `data_splitter.js`, both inside `src/data_splitter.js`,
and `markdown_compactor.js`, second half of `src/unnamed/part_000`).

DOM rows and message fragments are modelled as plain data: a fragment carries
an optional sender label (`none` models a row without a `.sender_name`
element) and its already-normalized content string (the Turndown conversion is
an external capability and is treated as identity on the stored content).
A row carries its DOM `id` (the empty string models a missing id, as
`row.id` is `""` for an element without an id attribute), an optional topic
label (`none` models a missing `.stream-topic-inner` element, in which case
the script dereferences `null`; `some t` models an element whose
`textContent` is `t`), and its ordered fragments.
-/

/-- One `{ sender, content }` record of the harvest output. -/
structure MessageRecord where
  sender : String
  content : String
deriving DecidableEq

/-- One `.message_row` inside a recipient row: optional `.sender_name`
label and the post-normalization `.message_content` text. -/
structure Fragment where
  senderLabel : Option String
  content : String
deriving DecidableEq

/-- One rendered `.recipient_row`. -/
structure Row where
  id : String
  topicLabel : Option String
  fragments : List Fragment
deriving DecidableEq

/-- The `overall_stuff` object: topic name to ordered record list, with
JS-object key insertion order (new keys appended at the end). -/
abbrev ResultMap := List (String × List MessageRecord)

/-- Reading `overall_stuff[topic]`: `none` when the key is absent. -/
def getTopic : ResultMap → String → Option (List MessageRecord)
  | [], _ => none
  | (k, v) :: rest, t => if k = t then some v else getTopic rest t

/-- Writing `overall_stuff[topic] = v`: update in place when the key exists,
append a new key otherwise. -/
def setTopic : ResultMap → String → List MessageRecord → ResultMap
  | [], t, v => [(t, v)]
  | (k, w) :: rest, t, v =>
    if k = t then (t, v) :: rest else (k, w) :: setTopic rest t v

/-- JS `String.prototype.trim`: strip leading and trailing whitespace
(modelled on ASCII whitespace, which covers every label in the claims). -/
def jsTrim (s : String) : String :=
  ⟨((s.data.dropWhile Char.isWhitespace).reverse.dropWhile Char.isWhitespace).reverse⟩

/-- The sender computation of the message loop (part_000 line 273):
`sender ? sender.textContent.trim() : (previous_sender ? previous_sender :
"Unknown Sender")`.  An explicit label is trimmed; otherwise the previous
sender is reused when it is truthy (a non-empty string), else the sentinel. -/
def jsSender (label : Option String) (prev : Option String) : String :=
  match label with
  | some s => jsTrim s
  | none =>
    match prev with
    | some p => if p = "" then "Unknown Sender" else p
    | none => "Unknown Sender"

/-- The duplicate test of part_000 line 278:
`overall_stuff[topic].some(item => item.sender === cur_sender &&
item.content === processed_content)`. -/
def isDuplicate (existing : List MessageRecord) (sender content : String) : Bool :=
  existing.any fun item => item.sender == sender && item.content == content

/-- The `for (const message_row of message_rows)` loop of part_000 lines
271-283.  On a duplicate the JS callback executes `return`, which exits the
whole per-row callback: the remaining fragments of the row are dropped.
Otherwise the record is appended and `previous_sender` is updated. -/
def addMessages : List MessageRecord → Option String → List Fragment → List MessageRecord
  | existing, _, [] => existing
  | existing, prev, f :: rest =>
    let cur := jsSender f.senderLabel prev
    if isDuplicate existing cur f.content then existing
    else addMessages (existing ++ [⟨cur, f.content⟩]) (some cur) rest

/-- The accumulator step for one (topic, fragment batch) pair: part_000 lines
264-283.  Creates the topic entry when absent (`if (!overall_stuff[topic])`),
then runs the message loop with `previous_sender` reset to `undefined`. -/
def merge (topic : String) (frags : List Fragment) (res : ResultMap) : ResultMap :=
  let base := (getTopic res topic).getD []
  let res0 :=
    match getTopic res topic with
    | some _ => res
    | none => setTopic res topic []
  setTopic res0 topic (addMessages base none frags)

/-- The sender-resolution logic of the message loop (part_000 lines 269-274)
in isolation, without the duplicate early exit: the ordered
(sender, content) pairs a row's fragments resolve to. -/
def resolveSenders : Option String → List Fragment → List MessageRecord
  | _, [] => []
  | prev, f :: rest =>
    let cur := jsSender f.senderLabel prev
    ⟨cur, f.content⟩ :: resolveSenders (some cur) rest

/-- The body of the `rows.forEach` callback (part_000 lines 231-284) for one
row.  `none` models the thrown `TypeError`: when the row has no
`.stream-topic-inner` element, `row.querySelector(...)` is `null` and reading
`.textContent` throws, aborting the whole pass.  A missing id (line 233), an
already-processed id (line 238) and an empty topic text (line 256) merely
skip the row. -/
def processRow (processed : List String) (res : ResultMap) (row : Row) :
    Option ResultMap :=
  if row.id = "" then some res
  else if processed.contains row.id then some res
  else
    match row.topicLabel with
    | none => none
    | some topic =>
      if topic = "" then some res
      else some (merge topic row.fragments res)

/-- Result of running the `rows.forEach` over a whole batch: either the
callback ran over every row, or an exception escaped part-way through and
`overall_stuff` keeps the mutations made before the throwing row. -/
inductive RowsOutcome where
  | ok (res : ResultMap)
  | thrown (res : ResultMap)
deriving DecidableEq

/-- The `rows.forEach(row => ...)` of part_000 line 231. -/
def processAllRows (processed : List String) : ResultMap → List Row → RowsOutcome
  | res, [] => .ok res
  | res, row :: rest =>
    match processRow processed res row with
    | some res' => processAllRows processed res' rest
    | none => .thrown res

/-- The mutable state of the scroll loop: `overall_stuff`, `processed_rows`
and `prev_last_row_id`. -/
structure ScrState where
  result : ResultMap
  processedRows : List String
  prevLastRowId : String
deriving DecidableEq

/-- Outcome of one `processRows` invocation: the function returned without
scheduling another pass (loop terminates), it reached the recursive call
(loop continues), or an uncaught exception escaped it. -/
inductive PassResult where
  | terminated (s : ScrState)
  | continueLoop (s : ScrState)
  | aborted (s : ScrState)
deriving DecidableEq

/-- The initial globals of part_000 lines 187 and 204-205. -/
def initialState : ScrState :=
  { result := []
    processedRows := []
    prevLastRowId := "random_name_picked_for_something_that_will_never_be_a_row_id" }

/-- One `processRows` pass (part_000 lines 208-305) over the currently
rendered `rows`.  In order: the empty-rows exit (line 217), the
all-already-processed exit (line 225), the per-row forEach, the unchanged
last-row-id exit (line 289, which leaves `processed_rows` untouched), and
otherwise the updates of lines 293-295 followed by the recursive call. -/
def processRowsStep (rows : List Row) (s : ScrState) : PassResult :=
  if rows.isEmpty then .terminated s
  else if (rows.map Row.id).all (fun i => s.processedRows.contains i) then .terminated s
  else
    match processAllRows s.processedRows s.result rows with
    | .thrown res => .aborted { s with result := res }
    | .ok res =>
      let lastId := ((rows.getLast?).map Row.id).getD ""
      if lastId = s.prevLastRowId then .terminated { s with result := res }
      else
        .continueLoop
          { result := res
            processedRows := s.processedRows ++ rows.map Row.id
            prevLastRowId := lastId }

/-- The recursion of `processRows`, driven by a scripted sequence of row
batches (the rendered rows observed at each pass); the script stands for the
host UI, following the design note of abstracting the DOM as a scripted
sequence.  Exhausting the script returns the state reached so far. -/
def runPasses : List (List Row) → ScrState → ScrState
  | [], s => s
  | rows :: rest, s =>
    match processRowsStep rows s with
    | .terminated s' => s'
    | .aborted s' => s'
    | .continueLoop s' => runPasses rest s'

/-- JS `Array.prototype.join(sep)`. -/
def jsJoin (sep : String) : List String → String
  | [] => ""
  | [x] => x
  | x :: y :: rest => x ++ sep ++ jsJoin sep (y :: rest)

/-- The accumulator loop of `collapseConsecutiveMessages` (data_splitter.js
lines 180-193): `currentSender`/`currentContent` carry the run being built;
a same-sender record is appended to `currentContent` with a blank line,
otherwise the built record is pushed and a new run starts. -/
def collapseLoop : String → String → List MessageRecord → List MessageRecord
  | s, c, [] => [⟨s, c⟩]
  | s, c, m :: rest =>
    if m.sender == s then collapseLoop s (c ++ "\n\n" ++ m.content) rest
    else ⟨s, c⟩ :: collapseLoop m.sender m.content rest

/-- `collapseConsecutiveMessages` of data_splitter.js lines 173-195. -/
def collapseConsecutiveMessages : List MessageRecord → List MessageRecord
  | [] => []
  | m :: rest => collapseLoop m.sender m.content rest

/-- The per-record rendering of `messagesToMarkdown`:
a template string producing one markdown block. -/
def mdBlock (m : MessageRecord) : String :=
  "**" ++ m.sender ++ ":** " ++ m.content

/-- `messagesToMarkdown` of data_splitter.js lines 202-212. -/
def messagesToMarkdown (messages : List MessageRecord) : String :=
  match messages with
  | [] => ""
  | _ => jsJoin "\n\n" ((collapseConsecutiveMessages messages).map mdBlock)

/-- The file body written by `createMarkdownFile` (data_splitter.js line 64). -/
def markdownFileContent (header content : String) : String :=
  "# " ++ header ++ "\n\n" ++ content

/-- Modelled from the spec (stage 2 output contract): the maximal runs of
consecutive same-sender records of a message list, used to compare the
implementation against the specification's wording. -/
def specRuns : List MessageRecord → List (List MessageRecord)
  | [] => []
  | m :: rest =>
    match specRuns rest with
    | (n :: r) :: rs =>
      if m.sender == n.sender then (m :: n :: r) :: rs else [m] :: (n :: r) :: rs
    | _ => [[m]]

/-- Modelled from the spec: one merged record per run, joining the run's
contents with a blank-line separator. -/
def specMergeRun : List MessageRecord → MessageRecord
  | [] => ⟨"", ""⟩
  | m :: rest => ⟨m.sender, jsJoin "\n\n" ((m :: rest).map MessageRecord.content)⟩

/-- Modelled from the spec: the stage 2 markdown string for one topic, the
merged runs rendered as sender-labelled blocks joined by blank lines. -/
def specStage2 (messages : List MessageRecord) : String :=
  jsJoin "\n\n" ((specRuns messages).map fun r => mdBlock (specMergeRun r))

/-- The character class of the first replacement in `sanitizeFilename`
(data_splitter.js line 46). -/
def invalidFilenameChars : List Char :=
  ['<', '>', ':', '"', '/', '\\', '|', '?', '*']

/-- The whitespace class of the second replacement (JS regex \s, modelled on
its ASCII members). -/
def isJsWhitespace (c : Char) : Bool :=
  c == ' ' || c == '\t' || c == '\n' || c == '\r' || c == '\x0b' || c == '\x0c'

/-- Replace every maximal run of characters satisfying `p` with a single
underscore; `inRun` records whether the previous character was in a run. -/
def squashRunsWith (p : Char → Bool) (inRun : Bool) : List Char → List Char
  | [] => []
  | c :: rest =>
    if p c then
      if inRun then squashRunsWith p true rest
      else '_' :: squashRunsWith p true rest
    else c :: squashRunsWith p false rest

/-- The fourth replacement of `sanitizeFilename`: strip leading and trailing
underscores. -/
def dropEdgeUnderscores (cs : List Char) : List Char :=
  ((cs.dropWhile fun c => c == '_').reverse.dropWhile fun c => c == '_').reverse

/-- `sanitizeFilename` of data_splitter.js lines 43-51: invalid characters
to `_`, whitespace runs to `_`, runs of 2+ underscores to one `_` (a single
`_` is already a single `_`, so squashing all runs is the same function),
strip edge underscores, lowercase. -/
def sanitizeFilename (filename : String) : String :=
  let cs1 := filename.data.map fun c => if invalidFilenameChars.contains c then '_' else c
  let cs2 := squashRunsWith isJsWhitespace false cs1
  let cs3 := squashRunsWith (fun c => c == '_') false cs2
  ⟨(dropEdgeUnderscores cs3).map Char.toLower⟩

/-- Write one file into a modelled flat directory (path-content pairs):
an existing path is overwritten in place, a new path appended. -/
def fsWrite : List (String × String) → String → String → List (String × String)
  | [], p, c => [(p, c)]
  | (q, d) :: rest, p, c =>
    if q = p then (p, c) :: rest else (q, d) :: fsWrite rest p c

/-- The entry loop of `splitData` (data_splitter.js lines 100-104) viewed
through the files it leaves on disk: each entry is written by
`createMarkdownFile` to `sanitizeFilename(header) + ".md"` with body
`# header\n\ncontent`, later writes overwriting earlier ones. -/
def splitDataFilesAux (fsState : List (String × String)) :
    List (String × String) → List (String × String)
  | [] => fsState
  | (header, content) :: rest =>
    splitDataFilesAux
      (fsWrite fsState (sanitizeFilename header ++ ".md") (markdownFileContent header content))
      rest

/-- The final directory contents after `splitData` runs on `entries`. -/
def splitDataFiles (entries : List (String × String)) : List (String × String) :=
  splitDataFilesAux [] entries

/-- Names written so far and outcome of per-entry writes in `splitData` /
`createMarkdownFile` when writes may fail: the per-file try/catch
(data_splitter.js lines 66-71) logs the failure and the loop continues. -/
structure SplitOutcome where
  written : List String
  failed : List String
deriving DecidableEq

/-- The filename `createMarkdownFile` derives for an entry header. -/
def entryFilename (header : String) : String :=
  sanitizeFilename header ++ ".md"

/-- `splitData`'s write loop under a write oracle `writeOk` (true = the
`fs.writeFileSync` succeeds): a failed write is logged and skipped, every
remaining entry is still processed, and the function never exits the
process. -/
def splitDataRun (writeOk : String → Bool) : List (String × String) → SplitOutcome
  | [] => ⟨[], []⟩
  | (header, _) :: rest =>
    let name := entryFilename header
    let r := splitDataRun writeOk rest
    if writeOk name then ⟨name :: r.written, r.failed⟩
    else ⟨r.written, name :: r.failed⟩

/-- The group-writing loop of `compactMarkdownFiles` (part_000 lines
523-538) under a write oracle.  The `fs.writeFileSync` sits inside the
function-level try of lines 486-551 whose catch calls `process.exit(1)`:
a failed write ends the run with exit code 1 (`Except.error`), carrying the
group files written before the failure; the remaining groups are never
written. -/
def compactWriteLoop (writeOk : String → Bool) (written : List String) :
    List String → Except (List String) (List String)
  | [] => .ok written
  | name :: rest =>
    if writeOk name then compactWriteLoop writeOk (written ++ [name]) rest
    else .error written

/-- `compactMarkdownFiles`'s write phase over the group filenames. -/
def compactWriteGroups (writeOk : String → Bool) (names : List String) :
    Except (List String) (List String) :=
  compactWriteLoop writeOk [] names

example :
    addMessages [] none [⟨none, "a"⟩, ⟨some "bob", "b"⟩, ⟨none, "c"⟩] =
      [⟨"Unknown Sender", "a"⟩, ⟨"bob", "b"⟩, ⟨"bob", "c"⟩] := by decide

example :
    addMessages [⟨"alice", "hello"⟩] none
        [⟨some "alice", "hello"⟩, ⟨some "bob", "hi"⟩] =
      [⟨"alice", "hello"⟩] := by decide

example :
    getTopic (merge "t" [⟨some " ", "a"⟩, ⟨none, "b"⟩] []) "t" =
      some [⟨"", "a"⟩, ⟨"Unknown Sender", "b"⟩] := by decide

example :
    messagesToMarkdown [⟨"a", "x"⟩, ⟨"a", "y"⟩, ⟨"b", "z"⟩] =
      "**a:** x\n\ny\n\n**b:** z" := by decide

example :
    specStage2 [⟨"a", "x"⟩, ⟨"a", "y"⟩, ⟨"b", "z"⟩] =
      "**a:** x\n\ny\n\n**b:** z" := by decide

example : sanitizeFilename "Q&A: <setup>" = "q&a_setup" := by decide

example : sanitizeFilename "A" = "a" ∧ sanitizeFilename "a b" = "a_b" := by decide

example :
    splitDataFiles [("A", "c1"), ("a", "c2")] = [("a.md", "# a\n\nc2")] := by decide

theorem contains_eq_true_iff (l : List String) (a : String) :
    l.contains a = true ↔ a ∈ l := by
  induction l with
  | nil => simp
  | cons b t ih => simp [List.contains, List.elem_cons]

theorem isDuplicate_of_mem {l : List MessageRecord} {s c : String}
    (h : (⟨s, c⟩ : MessageRecord) ∈ l) : isDuplicate l s c = true := by
  unfold isDuplicate
  rw [List.any_eq_true]
  exact ⟨⟨s, c⟩, h, by simp⟩

theorem not_mem_of_isDuplicate_eq_false {l : List MessageRecord} {s c : String}
    (h : ¬isDuplicate l s c = true) : (⟨s, c⟩ : MessageRecord) ∉ l := by
  intro hmem
  exact h (isDuplicate_of_mem hmem)

theorem addMessages_extends (fr : List Fragment) :
    ∀ (l : List MessageRecord) (p : Option String),
      ∃ t, addMessages l p fr = l ++ t := by
  induction fr with
  | nil => intro l p; exact ⟨[], by simp [addMessages]⟩
  | cons f rest ih =>
    intro l p
    unfold addMessages
    by_cases hd : isDuplicate l (jsSender f.senderLabel p) f.content
    · exact ⟨[], by simp [hd]⟩
    · obtain ⟨t, ht⟩ :=
        ih (l ++ [⟨jsSender f.senderLabel p, f.content⟩]) (some (jsSender f.senderLabel p))
      refine ⟨⟨jsSender f.senderLabel p, f.content⟩ :: t, ?_⟩
      simp only [hd, Bool.false_eq_true, if_false]
      rw [ht, List.append_assoc]
      rfl

theorem addMessages_nodup (fr : List Fragment) :
    ∀ (l : List MessageRecord) (p : Option String),
      l.Nodup → (addMessages l p fr).Nodup := by
  induction fr with
  | nil => intro l p h; simpa [addMessages] using h
  | cons f rest ih =>
    intro l p h
    unfold addMessages
    by_cases hd : isDuplicate l (jsSender f.senderLabel p) f.content
    · simpa [hd] using h
    · simp only [hd, Bool.false_eq_true, if_false]
      apply ih
      rw [List.nodup_append]
      refine ⟨h, List.nodup_singleton _, ?_⟩
      intro x hx hx'
      rw [List.mem_singleton] at hx'
      subst hx'
      exact not_mem_of_isDuplicate_eq_false hd hx

theorem addMessages_idem (l : List MessageRecord) (p : Option String)
    (fr : List Fragment) :
    addMessages (addMessages l p fr) p fr = addMessages l p fr := by
  cases fr with
  | nil => rfl
  | cons f rest =>
    by_cases hd : isDuplicate l (jsSender f.senderLabel p) f.content
    · simp [addMessages, hd]
    · have hstep :
          addMessages l p (f :: rest) =
            addMessages (l ++ [⟨jsSender f.senderLabel p, f.content⟩])
              (some (jsSender f.senderLabel p)) rest := by
        simp [addMessages, hd]
      obtain ⟨t, ht⟩ :=
        addMessages_extends rest (l ++ [⟨jsSender f.senderLabel p, f.content⟩])
          (some (jsSender f.senderLabel p))
      have hmem :
          (⟨jsSender f.senderLabel p, f.content⟩ : MessageRecord) ∈
            addMessages l p (f :: rest) := by
        rw [hstep, ht]
        simp
      conv_lhs => unfold addMessages
      simp [isDuplicate_of_mem hmem]

theorem getTopic_setTopic (res : ResultMap) (t t' : String)
    (v : List MessageRecord) :
    getTopic (setTopic res t v) t' = if t = t' then some v else getTopic res t' := by
  induction res with
  | nil => simp [setTopic, getTopic]
  | cons kv rest ih =>
    obtain ⟨k, w⟩ := kv
    simp only [setTopic]
    by_cases hk : k = t
    · subst hk
      rw [if_pos rfl]
      by_cases h : k = t' <;> simp [getTopic, h]
    · rw [if_neg hk]
      by_cases hk' : k = t'
      · subst hk'
        have ht' : ¬t = k := fun hh => hk hh.symm
        simp [getTopic, ht']
      · simp [getTopic, hk', ih]

theorem merge_def (topic : String) (frags : List Fragment) (res : ResultMap) :
    merge topic frags res =
      setTopic
        (match getTopic res topic with
         | some _ => res
         | none => setTopic res topic []) topic
        (addMessages ((getTopic res topic).getD []) none frags) := rfl

theorem setTopic_setTopic (res : ResultMap) (t : String)
    (v w : List MessageRecord) :
    setTopic (setTopic res t v) t w = setTopic res t w := by
  induction res with
  | nil => simp [setTopic]
  | cons kv rest ih =>
    obtain ⟨k, u⟩ := kv
    by_cases hk : k = t
    · subst hk
      simp [setTopic]
    · simp [setTopic, hk, ih]

/-- Every topic list held in the result map is duplicate-free. -/
def NodupResult (res : ResultMap) : Prop :=
  ∀ t l, getTopic res t = some l → l.Nodup

theorem merge_nodup {res : ResultMap} (h : NodupResult res) (topic : String)
    (frags : List Fragment) : NodupResult (merge topic frags res) := by
  intro t l hl
  rw [merge_def, getTopic_setTopic] at hl
  by_cases ht : topic = t
  · rw [if_pos ht] at hl
    injection hl with hl
    subst hl
    apply addMessages_nodup
    cases hb : getTopic res topic with
    | none => simp
    | some b => simpa using h topic b hb
  · rw [if_neg ht] at hl
    cases hres : getTopic res topic with
    | some b =>
      rw [hres] at hl
      exact h t l hl
    | none =>
      rw [hres] at hl
      rw [getTopic_setTopic, if_neg ht] at hl
      exact h t l hl

theorem processRow_nodup {processed : List String} {res : ResultMap} {row : Row}
    {res' : ResultMap} (h : NodupResult res)
    (hp : processRow processed res row = some res') : NodupResult res' := by
  unfold processRow at hp
  split at hp
  · injection hp with hp; subst hp; exact h
  · split at hp
    · injection hp with hp; subst hp; exact h
    · split at hp
      · exact Option.noConfusion hp
      · split at hp
        · injection hp with hp; subst hp; exact h
        · injection hp with hp
          subst hp
          exact merge_nodup h _ _

/-- The result map a forEach outcome carries (the final value of
`overall_stuff` whether or not an exception escaped). -/
def RowsOutcome.resOf : RowsOutcome → ResultMap
  | .ok r => r
  | .thrown r => r

theorem processAllRows_nodup (rows : List Row) :
    ∀ (processed : List String) (res : ResultMap), NodupResult res →
      NodupResult (processAllRows processed res rows).resOf := by
  induction rows with
  | nil =>
    intro processed res h
    simpa [processAllRows, RowsOutcome.resOf] using h
  | cons row rest ih =>
    intro processed res h
    unfold processAllRows
    cases hp : processRow processed res row with
    | some res' => exact ih processed res' (processRow_nodup h hp)
    | none => simpa [RowsOutcome.resOf] using h

/-- The loop state a pass outcome carries. -/
def PassResult.stateOf : PassResult → ScrState
  | .terminated s => s
  | .continueLoop s => s
  | .aborted s => s

theorem processRowsStep_nodup (rows : List Row) (s : ScrState)
    (h : NodupResult s.result) :
    NodupResult ((processRowsStep rows s).stateOf).result := by
  unfold processRowsStep
  split
  · simpa [PassResult.stateOf] using h
  · split
    · simpa [PassResult.stateOf] using h
    · have hres := processAllRows_nodup rows s.processedRows s.result h
      cases hp : processAllRows s.processedRows s.result rows with
      | thrown res =>
        rw [hp] at hres
        simpa [PassResult.stateOf, RowsOutcome.resOf] using hres
      | ok res =>
        rw [hp] at hres
        simp only [RowsOutcome.resOf] at hres
        by_cases hlast : ((rows.getLast?).map Row.id).getD "" = s.prevLastRowId
        · simpa [PassResult.stateOf, hlast] using hres
        · simpa [PassResult.stateOf, hlast] using hres

theorem runPasses_nodup (script : List (List Row)) :
    ∀ s : ScrState, NodupResult s.result →
      NodupResult (runPasses script s).result := by
  induction script with
  | nil => intro s h; simpa [runPasses] using h
  | cons rows rest ih =>
    intro s h
    unfold runPasses
    cases hp : processRowsStep rows s with
    | terminated s' =>
      have hres := processRowsStep_nodup rows s h
      rw [hp] at hres
      simpa [PassResult.stateOf] using hres
    | aborted s' =>
      have hres := processRowsStep_nodup rows s h
      rw [hp] at hres
      simpa [PassResult.stateOf] using hres
    | continueLoop s' =>
      have hres := processRowsStep_nodup rows s h
      rw [hp] at hres
      exact ih s' (by simpa [PassResult.stateOf] using hres)

/-- Claim C3: merging the same (topic, records) batch into the accumulator
twice in succession yields the same result map as merging it once — the
second merge changes nothing (part_000 lines 264-283; the duplicate check
sees every record the first merge stored, so the second merge stops at its
first record or re-skips every one). -/
theorem c3_merge_idempotent (topic : String) (frags : List Fragment)
    (res : ResultMap) :
    merge topic frags (merge topic frags res) = merge topic frags res := by
  have hX :
      getTopic (merge topic frags res) topic =
        some (addMessages ((getTopic res topic).getD []) none frags) := by
    rw [merge_def, getTopic_setTopic, if_pos rfl]
  rw [merge_def topic frags (merge topic frags res), hX]
  simp only [Option.getD_some]
  rw [addMessages_idem]
  rw [merge_def topic frags res]
  exact setTopic_setTopic _ topic _ _

/-- Claim C1: across any harvest session (any scripted sequence of rendered
row batches processed by the scroll loop), every topic's accumulated list
holds at most one record per (sender, content) pair — a record identical to
one already present is never appended a second time. -/
theorem c1_no_duplicate_records (script : List (List Row)) (topic : String)
    (recs : List MessageRecord)
    (h : getTopic (runPasses script initialState).result topic = some recs) :
    recs.Nodup := by
  have hinit : NodupResult initialState.result := by
    intro t l hl
    exact Option.noConfusion hl
  exact runPasses_nodup script initialState hinit topic recs h

def row1 : Row :=
  { id := "r1", topicLabel := some "topicA", fragments := [⟨some "alice", "hello"⟩] }

def row2 : Row :=
  { id := "r2", topicLabel := some "topicA", fragments := [⟨some "alice", "hello"⟩] }

/-- Witness for C1: two passes whose batches both carry
(topicA, alice, hello); the final list holds the record exactly once. -/
theorem c1_witness : ([⟨"alice", "hello"⟩] : List MessageRecord).Nodup :=
  c1_no_duplicate_records [[row1], [row1, row2]] "topicA" [⟨"alice", "hello"⟩]
    (by decide)

/-- Claim C2, behavior of the code at the failing input: at part_000 line
280 the callback executes `return` inside the per-message `for` loop, which
exits the whole forEach callback; the remaining records of the batch are
dropped.  Merging the batch [("alice","hello"), ("bob","hi")] into a topic
already holding ("alice","hello") leaves ("bob","hi") unappended even
though it is not itself a duplicate. -/
theorem c2_duplicate_aborts_batch :
    getTopic (merge "t" [⟨some "alice", "hello"⟩, ⟨some "bob", "hi"⟩]
        [("t", [⟨"alice", "hello"⟩])]) "t" = some [⟨"alice", "hello"⟩] ∧
    getTopic (merge "t" [⟨some "alice", "hello"⟩, ⟨some "bob", "hi"⟩]
        [("t", [⟨"alice", "hello"⟩])]) "t" ≠
      some [⟨"alice", "hello"⟩, ⟨"bob", "hi"⟩] := by decide

/-- Counterexample to claim C4 as stated: in the row
[(" ", "a"), (no label, "b")] the first fragment's explicit label trims to
"" and becomes the current sender, so by the claim the second record's
sender is ""; the code instead falls back to the sentinel, because the JS
truthiness test `previous_sender ? previous_sender : "Unknown Sender"`
treats the empty string as falsy (part_000 line 273). -/
theorem c4_counterexample :
    getTopic (merge "t" [⟨some " ", "a"⟩, ⟨none, "b"⟩] []) "t" ≠
      some [⟨"", "a"⟩, ⟨"", "b"⟩] ∧
    getTopic (merge "t" [⟨some " ", "a"⟩, ⟨none, "b"⟩] []) "t" =
      some [⟨"", "a"⟩, ⟨"Unknown Sender", "b"⟩] := by decide

/-- Claim C4 as amended: a labelled fragment uses its trimmed label, which
becomes the row's current sender; an unlabelled fragment reuses the current
sender when it is non-empty, and uses the sentinel "Unknown Sender" when no
sender has been seen in the row yet or the current sender is the empty
string (the used sender always becomes the current one); the claim's
example row resolves as stated, both in isolation and through the merge
path from an empty topic. -/
theorem c4_amended_sender_inheritance :
    (∀ (lbl c : String) (p : Option String) (rest : List Fragment),
        resolveSenders p (⟨some lbl, c⟩ :: rest) =
          ⟨jsTrim lbl, c⟩ :: resolveSenders (some (jsTrim lbl)) rest) ∧
    (∀ (p c : String) (rest : List Fragment), p ≠ "" →
        resolveSenders (some p) (⟨none, c⟩ :: rest) =
          ⟨p, c⟩ :: resolveSenders (some p) rest) ∧
    (∀ (c : String) (rest : List Fragment),
        resolveSenders none (⟨none, c⟩ :: rest) =
          ⟨"Unknown Sender", c⟩ :: resolveSenders (some "Unknown Sender") rest) ∧
    (∀ (c : String) (rest : List Fragment),
        resolveSenders (some "") (⟨none, c⟩ :: rest) =
          ⟨"Unknown Sender", c⟩ :: resolveSenders (some "Unknown Sender") rest) ∧
    resolveSenders none [⟨none, "a"⟩, ⟨some "bob", "b"⟩, ⟨none, "c"⟩] =
      [⟨"Unknown Sender", "a"⟩, ⟨"bob", "b"⟩, ⟨"bob", "c"⟩] ∧
    addMessages [] none [⟨none, "a"⟩, ⟨some "bob", "b"⟩, ⟨none, "c"⟩] =
      [⟨"Unknown Sender", "a"⟩, ⟨"bob", "b"⟩, ⟨"bob", "c"⟩] := by
  refine ⟨?_, ?_, ?_, ?_, by decide, by decide⟩
  · intro lbl c p rest
    rfl
  · intro p c rest hp
    simp [resolveSenders, jsSender, hp]
  · intro c rest
    rfl
  · intro c rest
    rfl

/-- Witness for the amended C4: a non-empty current sender is reused. -/
theorem c4_witness :
    resolveSenders (some "bob") [⟨none, "x"⟩] =
      ⟨"bob", "x"⟩ :: resolveSenders (some "bob") [] :=
  c4_amended_sender_inheritance.2.1 "bob" "x" [] (by decide)

def rowNoTopic : Row :=
  { id := "r1", topicLabel := none, fragments := [⟨some "alice", "hello"⟩] }

def rowGood : Row :=
  { id := "r2", topicLabel := some "topicA", fragments := [⟨some "bob", "hi"⟩] }

/-- Claim C7, behavior of the code at the failing input: a rendered row
with no `.stream-topic-inner` element makes `row.querySelector(...)` return
`null`, and reading `.textContent` (part_000 line 255) throws; the
exception escapes the forEach, so the pass aborts, the following
well-formed row is never extracted and nothing is saved — the session does
not continue with the remaining rows. -/
theorem c7_missing_topic_element_aborts :
    processRowsStep [rowNoTopic, rowGood] initialState = .aborted initialState ∧
    processRow initialState.processedRows initialState.result rowNoTopic = none := by
  decide

/-- Claim C5: a pass that observes only row identifiers already in
`processed_rows` returns during that pass with the state unchanged
(part_000 lines 225-228; the zero-rows exit of line 217 is the vacuous
case), and the exit is the loop's normal `return`, not an error; in
particular a pass that continued on a batch leaves every one of that
batch's identifiers processed, so a second pass over the identical batch
terminates — there is no third pass. -/
theorem c5_stall_terminates (rows : List Row) (s : ScrState)
    (h : (∀ i ∈ rows.map Row.id, i ∈ s.processedRows) ∨
         ∃ s0, processRowsStep rows s0 = .continueLoop s) :
    processRowsStep rows s = .terminated s := by
  have hall : ∀ i ∈ rows.map Row.id, i ∈ s.processedRows := by
    cases h with
    | inl h => exact h
    | inr h =>
      obtain ⟨s0, h0⟩ := h
      unfold processRowsStep at h0
      split at h0
      · exact absurd h0 (by simp)
      · split at h0
        · exact absurd h0 (by simp)
        · cases hp : processAllRows s0.processedRows s0.result rows with
          | thrown res =>
            rw [hp] at h0
            exact absurd h0 (by simp)
          | ok res =>
            rw [hp] at h0
            simp only [] at h0
            split at h0
            · exact absurd h0 (by simp)
            · injection h0 with h0
              intro i hi
              rw [← h0]
              simp only [List.mem_append]
              exact Or.inr hi
  have hcond : ((rows.map Row.id).all fun i => s.processedRows.contains i) = true := by
    rw [List.all_eq_true]
    intro i hi
    exact (contains_eq_true_iff _ _).mpr (hall i hi)
  unfold processRowsStep
  by_cases hempty : rows.isEmpty = true
  · rw [if_pos hempty]
  · rw [if_neg hempty, if_pos hcond]

def rowSeen : Row :=
  { id := "r1", topicLabel := some "topicA", fragments := [] }

def stateSeen : ScrState :=
  { result := [], processedRows := ["r1"], prevLastRowId := "x" }

/-- Witness for C5: a pass over one already-processed row terminates with
the state unchanged. -/
theorem c5_witness :
    processRowsStep [rowSeen] stateSeen = .terminated stateSeen :=
  c5_stall_terminates [rowSeen] stateSeen (Or.inl (by decide))

/-- Claim C6: over any pass that terminates or continues the loop,
`processed_rows` only grows — the new value extends the old one by
appending, never removing (part_000 line 295) — and a row whose identifier
is already in `processed_rows` is never extracted again: the forEach
callback returns before reading its messages, leaving the result map
untouched (part_000 lines 238-241). -/
theorem c6_seen_rows_monotone (rows : List Row) (s s' : ScrState)
    (h : processRowsStep rows s = .continueLoop s' ∨
         processRowsStep rows s = .terminated s') :
    (∃ newIds, s'.processedRows = s.processedRows ++ newIds) ∧
    ∀ (res : ResultMap) (row : Row), row.id ∈ s.processedRows →
      processRow s.processedRows res row = some res := by
  constructor
  · cases h with
    | inl h =>
      unfold processRowsStep at h
      split at h
      · exact absurd h (by simp)
      · split at h
        · exact absurd h (by simp)
        · cases hp : processAllRows s.processedRows s.result rows with
          | thrown res =>
            rw [hp] at h
            exact absurd h (by simp)
          | ok res =>
            rw [hp] at h
            simp only [] at h
            split at h
            · exact absurd h (by simp)
            · injection h with h
              exact ⟨rows.map Row.id, by rw [← h]⟩
    | inr h =>
      unfold processRowsStep at h
      split at h
      · injection h with h
        exact ⟨[], by rw [← h]; simp⟩
      · split at h
        · injection h with h
          exact ⟨[], by rw [← h]; simp⟩
        · cases hp : processAllRows s.processedRows s.result rows with
          | thrown res =>
            rw [hp] at h
            exact absurd h (by simp)
          | ok res =>
            rw [hp] at h
            simp only [] at h
            split at h
            · injection h with h
              exact ⟨[], by rw [← h]; simp⟩
            · exact absurd h (by simp)
  · intro res row hrow
    unfold processRow
    by_cases hid : row.id = ""
    · rw [if_pos hid]
    · rw [if_neg hid, if_pos ((contains_eq_true_iff _ _).mpr hrow)]

def s1c : ScrState :=
  { result := [("topicA", [⟨"alice", "hello"⟩])]
    processedRows := ["r1"]
    prevLastRowId := "r1" }

/-- Witness for C6: the first pass of a session over one fresh row grows
`processed_rows` by appending, and any row already processed is skipped. -/
theorem c6_witness :
    (∃ newIds, s1c.processedRows = initialState.processedRows ++ newIds) ∧
    ∀ (res : ResultMap) (row : Row), row.id ∈ initialState.processedRows →
      processRow initialState.processedRows res row = some res :=
  c6_seen_rows_monotone [row1] initialState s1c (Or.inl (by decide))

theorem jsJoin_merge_head (sep a b : String) (l : List String) :
    jsJoin sep ((a ++ sep ++ b) :: l) = a ++ sep ++ jsJoin sep (b :: l) := by
  cases l with
  | nil => rfl
  | cons y t => simp [jsJoin, String.append_assoc]

theorem specRuns_cons (m : MessageRecord) (l : List MessageRecord) :
    ∃ r rs, specRuns (m :: l) = (m :: r) :: rs := by
  cases hl : specRuns l with
  | nil => exact ⟨[], [], by simp [specRuns, hl]⟩
  | cons r0 rs0 =>
    cases r0 with
    | nil => exact ⟨[], [], by simp [specRuns, hl]⟩
    | cons n r =>
      by_cases hmn : (m.sender == n.sender) = true
      · exact ⟨n :: r, rs0, by simp [specRuns, hl, hmn]⟩
      · exact ⟨[], (n :: r) :: rs0, by simp [specRuns, hl, hmn]⟩

theorem collapseLoop_eq_specRuns (rest : List MessageRecord) :
    ∀ (s c : String),
      collapseLoop s c rest = (specRuns (⟨s, c⟩ :: rest)).map specMergeRun := by
  induction rest with
  | nil =>
    intro s c
    simp [collapseLoop, specRuns, specMergeRun, jsJoin]
  | cons m rest' ih =>
    intro s c
    by_cases hsm : (m.sender == s) = true
    · have hs : m.sender = s := by simpa using hsm
      subst hs
      rw [show collapseLoop m.sender c (m :: rest') =
            collapseLoop m.sender (c ++ "\n\n" ++ m.content) rest' from by
          simp [collapseLoop]]
      rw [ih]
      cases hr : specRuns rest' with
      | nil => simp [specRuns, hr, specMergeRun, jsJoin]
      | cons r0 rs0 =>
        cases r0 with
        | nil => simp [specRuns, hr, specMergeRun, jsJoin]
        | cons n r =>
          by_cases hmn : (m.sender == n.sender) = true
          · simp [specRuns, hr, hmn, specMergeRun, jsJoin, String.append_assoc]
          · simp [specRuns, hr, hmn, specMergeRun, jsJoin, String.append_assoc]
    · have hne : ¬m.sender = s := by simpa using hsm
      have hs' : (s == m.sender) = false := by
        rw [beq_eq_false_iff_ne]
        exact fun he => hne he.symm
      rw [show collapseLoop s c (m :: rest') =
            ⟨s, c⟩ :: collapseLoop m.sender m.content rest' from by
          simp [collapseLoop, hsm]]
      rw [ih]
      rw [show (⟨m.sender, m.content⟩ : MessageRecord) = m from rfl]
      cases hr : specRuns rest' with
      | nil => simp [specRuns, hr, hs', specMergeRun, jsJoin]
      | cons r0 rs0 =>
        cases r0 with
        | nil => simp [specRuns, hr, hs', specMergeRun, jsJoin]
        | cons n r =>
          by_cases hmn : (m.sender == n.sender) = true
          · simp [specRuns, hr, hs', hmn, specMergeRun, jsJoin]
          · simp [specRuns, hr, hs', hmn, specMergeRun, jsJoin]

/-- Claim C8: for every topic with a non-empty message list, stage 2's
`messagesToMarkdown` produces exactly the markdown obtained by merging each
maximal run of consecutive same-sender records (run contents joined by a
blank line) and rendering the merged records as sender-labelled blocks
joined by blank lines, and stage 3 writes `# topic`, a blank line, and that
string; the claim's example evaluates as stated. -/
theorem c8_stage2_stage3_roundtrip :
    (∀ (topic : String) (messages : List MessageRecord), messages ≠ [] →
        messagesToMarkdown messages = specStage2 messages ∧
        markdownFileContent topic (messagesToMarkdown messages) =
          "# " ++ topic ++ "\n\n" ++ specStage2 messages) ∧
    messagesToMarkdown [⟨"a", "x"⟩, ⟨"a", "y"⟩, ⟨"b", "z"⟩] =
      "**a:** x\n\ny\n\n**b:** z" ∧
    markdownFileContent "t"
        (messagesToMarkdown [⟨"a", "x"⟩, ⟨"a", "y"⟩, ⟨"b", "z"⟩]) =
      "# t\n\n**a:** x\n\ny\n\n**b:** z" := by
  refine ⟨?_, by decide, by decide⟩
  intro topic messages hne
  have hmain : messagesToMarkdown messages = specStage2 messages := by
    cases messages with
    | nil => exact absurd rfl hne
    | cons m rest =>
      show jsJoin "\n\n" ((collapseConsecutiveMessages (m :: rest)).map mdBlock) = _
      rw [show collapseConsecutiveMessages (m :: rest) =
            collapseLoop m.sender m.content rest from rfl]
      rw [collapseLoop_eq_specRuns]
      rw [show (⟨m.sender, m.content⟩ : MessageRecord) = m from rfl]
      unfold specStage2
      rw [List.map_map]
      rfl
  exact ⟨hmain, by rw [hmain]; rfl⟩

/-- Witness for C8 at the claim's example input. -/
theorem c8_witness :
    messagesToMarkdown [⟨"a", "x"⟩, ⟨"a", "y"⟩, ⟨"b", "z"⟩] =
      specStage2 [⟨"a", "x"⟩, ⟨"a", "y"⟩, ⟨"b", "z"⟩] ∧
    markdownFileContent "t"
        (messagesToMarkdown [⟨"a", "x"⟩, ⟨"a", "y"⟩, ⟨"b", "z"⟩]) =
      "# " ++ "t" ++ "\n\n" ++ specStage2 [⟨"a", "x"⟩, ⟨"a", "y"⟩, ⟨"b", "z"⟩] :=
  c8_stage2_stage3_roundtrip.1 "t" [⟨"a", "x"⟩, ⟨"a", "y"⟩, ⟨"b", "z"⟩]
    (by decide)

def failFirstWrite : String → Bool :=
  fun n => n != "group_1_of_2_1_files.md"

/-- Counterexample to claim C9 as stated: in stage 4 a failure to write the
first group file ends the run with exit code 1 (`Except.error`) and the
second, writable group file is never written — the batch does not continue,
although no structural failure (missing input) occurred. -/
theorem c9_counterexample :
    compactWriteGroups failFirstWrite
        ["group_1_of_2_1_files.md", "group_2_of_2_1_files.md"] =
      .error [] ∧
    compactWriteGroups failFirstWrite
        ["group_1_of_2_1_files.md", "group_2_of_2_1_files.md"] ≠
      .ok ["group_2_of_2_1_files.md"] := by
  refine ⟨rfl, fun h => ?_⟩
  rw [show compactWriteGroups failFirstWrite
        ["group_1_of_2_1_files.md", "group_2_of_2_1_files.md"] =
      .error [] from rfl] at h
  exact Except.noConfusion h

theorem compactWriteLoop_error (writeOk : String → Bool) (bad : String)
    (hbad : writeOk bad = false) :
    ∀ names : List String, bad ∈ names →
      ∀ acc, ∃ ws, compactWriteLoop writeOk acc names = .error ws := by
  intro names
  induction names with
  | nil =>
    intro hmem
    exact absurd hmem (List.not_mem_nil bad)
  | cons n rest ih =>
    intro hmem acc
    by_cases hw : writeOk n = true
    · have hb : bad ∈ rest := by
        rcases List.mem_cons.mp hmem with h | h
        · subst h
          rw [hbad] at hw
          exact absurd hw (by simp)
        · exact h
      obtain ⟨ws, hws⟩ := ih hb (acc ++ [n])
      refine ⟨ws, ?_⟩
      simp only [compactWriteLoop]
      rw [if_pos hw]
      exact hws
    · refine ⟨acc, ?_⟩
      simp only [compactWriteLoop]
      rw [if_neg hw]

/-- Claim C9 as amended: in stage 3 (`data_splitter.js`) a single file
write failure is logged and that file skipped while the loop continues with
every remaining entry — the written and failed names partition the entry
filenames by the write oracle; in stage 4 (`markdown_compactor.js`) any
group-file write failure terminates the process with exit code 1 and the
remaining groups are not written. -/
theorem c9_amended_write_failures :
    (∀ (writeOk : String → Bool) (entries : List (String × String)),
        (splitDataRun writeOk entries).written =
          ((entries.map fun e => entryFilename e.1).filter fun n => writeOk n) ∧
        (splitDataRun writeOk entries).failed =
          ((entries.map fun e => entryFilename e.1).filter fun n => !writeOk n)) ∧
    (∀ (writeOk : String → Bool) (names : List String) (bad : String),
        bad ∈ names → writeOk bad = false →
        ∃ ws, compactWriteGroups writeOk names = .error ws) := by
  constructor
  · intro writeOk entries
    induction entries with
    | nil => exact ⟨rfl, rfl⟩
    | cons e rest ih =>
      obtain ⟨h1, h2⟩ := ih
      obtain ⟨header, content⟩ := e
      simp only [splitDataRun, List.map_cons, List.filter_cons]
      by_cases hw : writeOk (entryFilename header) = true
      · exact ⟨by simp [hw, h1], by simp [hw, h2]⟩
      · exact ⟨by simp [hw, h1], by simp [hw, h2]⟩
  · intro writeOk names bad hmem hbad
    exact compactWriteLoop_error writeOk bad hbad names hmem []

def failSecondWrite : String → Bool :=
  fun n => n != "b.md"

/-- Witness for the amended C9: a stage 4 run whose second group write
fails exits with an error. -/
theorem c9_witness :
    ∃ ws, compactWriteGroups failSecondWrite ["a.md", "b.md"] = .error ws :=
  c9_amended_write_failures.2 failSecondWrite ["a.md", "b.md"] "b.md"
    (by decide) (by decide)

/-- Claim C10: `sanitizeFilename` is not injective — distinct topic names
differing only in case, in whitespace versus underscore, or in which
invalid character they contain sanitize to the same token; `splitData`
writes both such topics to the same `.md` path, the later write silently
overwriting the earlier file, so the directory ends with strictly fewer
files than input topics. -/
theorem c10_sanitize_collisions :
    ("A" ≠ "a" ∧ sanitizeFilename "A" = sanitizeFilename "a") ∧
    ("a b" ≠ "a_b" ∧ sanitizeFilename "a b" = sanitizeFilename "a_b") ∧
    ("t?" ≠ "t*" ∧ sanitizeFilename "t?" = sanitizeFilename "t*") ∧
    splitDataFiles [("A", "c1"), ("a", "c2")] = [("a.md", "# a\n\nc2")] ∧
    (splitDataFiles [("A", "c1"), ("a", "c2")]).length <
      [("A", "c1"), ("a", "c2")].length := by decide
